import Mathlib

/-
Verification of the document-transformation core of the `ebook` build pipeline.

The development shallowly embeds two parts of the code base:

* `scripts/pandoc-filter.py` — the per-format pandoc filter: the AST node
  model, the marker matcher, the transform engine and the metadata
  substitutor.  Python strings are modelled as `List Char`; the regular
  expressions of the filter all have the shape `^(.*)token(.*)$` with greedy
  groups, which on the newline-free text of pandoc `Str` leaves is exactly a
  split of the text at the last occurrence of `token` (`lastSplit` below).
  The fatal `abort` of `lib/__init__.py` is modelled by `Except.error`.

* `lib/__init__.py` `validate_metadata` — metadata validation with the
  dotted-key drill-down loop, including the `AttributeError` a Python
  `d.get(k)` raises when the drill lands on a truthy non-mapping value.

* `ebook.py` `fix_toc_ncx` / `fix_nav_xhtml` — the navigation normalizer:
  drop entries whose label is empty or equals the book title, renumber the
  survivors from 1, then strip stray text nodes, in both the numbered-entry
  (toc.ncx) and nested-list (nav.xhtml) encodings.  Entry lists are modelled
  as flat lists of direct children of the entry-list root, the data model the
  specification assigns to navigation documents; a navPoint label stands for
  the whitespace-stripped concatenated text of its first text element, with
  a missing text element rendered as the empty label.  The entry-removal and
  renumbering loops iterate fresh `getElementsByTagName` snapshots and are
  modelled as plain filters/maps, but `strip_text_children` iterates the
  LIVE `childNodes` list while calling `removeChild`, so the child after
  each removed text node is skipped; `stripTextNcx`/`stripTextOl` embed
  exactly that skipping behaviour.
-/

/-- Python strings are modelled as lists of characters. -/
abbrev Txt := List Char

/-- Conversion from Lean string literals to the `Txt` model. -/
def txt (s : String) : Txt := s.data

/-- Decidable substring test: does `tok` occur somewhere in `s`?
Models Python `tok in s` / a successful `re.match` of `^(.*)tok(.*)$`. -/
def hasSub (tok : Txt) : Txt → Bool
  | [] => decide (tok = [])
  | c :: rest => tok.isPrefixOf (c :: rest) || hasSub tok rest

/-- Split `s` at the LAST occurrence of `tok`: the behaviour of the greedy
regular expression `^(.*)tok(.*)$` used throughout the pandoc filter.
Returns `some (before, after)` on a match, `none` when `tok` does not occur. -/
def lastSplit (tok : Txt) : Txt → Option (Txt × Txt)
  | [] => if tok = [] then some ([], []) else none
  | c :: rest =>
    match lastSplit tok rest with
    | some (p, q) => some (c :: p, q)
    | none =>
      if tok.isPrefixOf (c :: rest) then some ([], (c :: rest).drop tok.length)
      else none

/-- Inline nodes of the document tree (pandoc `Str`, `LineBreak`,
`RawInline`). -/
inductive Inline where
  | str (text : Txt)
  | lineBreak
  | rawInline (fmt : Txt) (text : Txt)
deriving DecidableEq

/-- Block nodes of the document tree (pandoc `Header`, `Para`, `Div`,
`RawBlock`).  `Div` attributes are a key-value list. -/
inductive Block where
  | header (level : Nat) (content : List Inline)
  | para (content : List Inline)
  | div (children : List Block) (attrs : List (Txt × Txt))
  | rawBlock (fmt : Txt) (text : Txt)

/-- Metadata values: scalars are strings, plus lists of strings and nested
string-keyed mappings, as produced by the YAML front matter. -/
inductive Meta where
  | str (s : Txt)
  | list (l : List Txt)
  | map (entries : List (Txt × Meta))

/-- Python truthiness of a metadata value: empty string, empty list and empty
mapping are falsy. -/
def truthy : Meta → Bool
  | .str s => !s.isEmpty
  | .list l => !l.isEmpty
  | .map es => !es.isEmpty

/-- First-match association-list lookup, modelling Python `dict.get`. -/
def lookupTxt (k : Txt) : List (Txt × Meta) → Option Meta
  | [] => none
  | (k2, v) :: rest => if k2 = k then some v else lookupTxt k rest

/-- Split a dotted key path at the dots: `key.split('.')`. -/
def splitDot : Txt → List Txt
  | [] => [[]]
  | c :: rest =>
    match splitDot rest with
    | [] => [[]]
    | p :: ps => if c = '.' then [] :: p :: ps else (c :: p) :: ps

/-- The single-quote character, used by Python `repr` of strings. -/
def squoteC : Char := Char.ofNat 39

/-- Comma-separated join used by Python `repr` of containers. -/
def sepJoin : List Txt → Txt
  | [] => []
  | [x] => x
  | x :: y :: rest => x ++ txt ", " ++ sepJoin (y :: rest)

mutual

/-- Python `repr` of a metadata value (strings quoted), used when an f-string
interpolates a non-string metadata value. -/
def reprOf : Meta → Txt
  | .str s => squoteC :: s ++ [squoteC]
  | .list l => txt "[" ++ sepJoin (l.map (fun s => squoteC :: s ++ [squoteC])) ++ txt "]"
  | .map es => txt "\x7b" ++ reprPairs es ++ txt "\x7d"

/-- Python `repr` of the entries of a dict. -/
def reprPairs : List (Txt × Meta) → Txt
  | [] => []
  | [(k, v)] => (squoteC :: k ++ [squoteC]) ++ txt ": " ++ reprOf v
  | (k, v) :: p :: rest =>
    (squoteC :: k ++ [squoteC]) ++ txt ": " ++ reprOf v ++ txt ", " ++ reprPairs (p :: rest)

end

/-- Python `str()` of a metadata value, as interpolated by an f-string:
plain for strings, `repr` for containers. -/
def metaToStr : Meta → Txt
  | .str s => s
  | .list l => reprOf (.list l)
  | .map es => reprOf (.map es)

/-- Dotted-path metadata lookup as performed by panflute
`doc.get_metadata(key, default)`: walk the mapping along the split key,
returning `none` (so that the caller's default applies) on any failure. -/
def pfLookup : Meta → List Txt → Option Meta
  | m, [] => some m
  | .map es, k :: ks =>
    match lookupTxt k es with
    | some v => pfLookup v ks
    | none => none
  | .str _, _ :: _ => none
  | .list _, _ :: _ => none

/-- `doc.get_metadata(meta_key, '')` followed by f-string interpolation. -/
def getMetaTxt (m : Meta) (dotted : Txt) : Txt :=
  match pfLookup m (splitDot dotted) with
  | some v => metaToStr v
  | none => txt ""

/-- `doc.get_metadata('author', [])` followed by Python iteration: a list
yields its members, a string yields its characters, a dict its keys. -/
def getAuthors (m : Meta) : List Txt :=
  match m with
  | .map es =>
    match lookupTxt (txt "author") es with
    | some (.list l) => l
    | some (.str s) => s.map (fun c => [c])
    | some (.map es2) => es2.map (fun p => p.1)
    | none => []
  | .str _ => []
  | .list _ => []

/-- The author-joining loop of `transform`: separator `", "` before every
non-final element, `" and "` before the final one. -/
def authorJoinGo (n total : Nat) : List Txt → Txt → Txt
  | [], acc => acc
  | a :: rest, acc =>
    let sep := if n < total - 1 then txt ", " else txt " and "
    let acc2 := if n > 0 then acc ++ sep ++ a else a
    authorJoinGo (n + 1) total rest acc2

/-- Join an author list the way the `%author%` branch of `transform` does. -/
def authorJoin (authors : List Txt) : Txt :=
  authorJoinGo 0 authors.length authors []

/-- Marker token `{<}` (left justification). -/
def LEFT_JUSTIFY : Txt := txt "\x7b<\x7d"

/-- Marker token `{-}` (centering). -/
def CENTER_JUSTIFY : Txt := txt "\x7b-\x7d"

/-- Marker token `{>}` (right justification). -/
def RIGHT_JUSTIFY : Txt := txt "\x7b>\x7d"

/-- The `%author%` placeholder token of `AUTHOR_PAT`. -/
def AUTHOR_PAT : Txt := txt "%author%"

/-- The token/metadata-key table `SIMPLE_PATTERNS`, in source order. -/
def SIMPLE_PATTERNS : List (Txt × Txt) :=
  [(txt "%title%", txt "title"),
   (txt "%subtitle%", txt "subtitle"),
   (txt "%copyright-owner%", txt "copyright.owner"),
   (txt "%copyright-year%", txt "copyright.year"),
   (txt "%publisher%", txt "publisher"),
   (txt "%language%", txt "language")]

/-- The deprecated `%newpage%` marker token. -/
def NEWPAGE_TOK : Txt := txt "%newpage%"

/-- The `+++` section-separator token. -/
def SEP_TOK : Txt := txt "+++"

/-- The abort message for the deprecated `%newpage%` marker. -/
def NEWPAGE_MSG : Txt := txt "%newpage% is no longer supported."

/-- `matches_text`: is the inline a `Str` with exactly this text? -/
def matchesText (i : Inline) (t : Txt) : Bool :=
  match i with
  | .str s => decide (s = t)
  | .lineBreak => false
  | .rawInline _ _ => false

/-- Is the inline a `LineBreak`? -/
def isLineBreakB : Inline → Bool
  | .lineBreak => true
  | .str _ => false
  | .rawInline _ _ => false

/-- `paragraph_starts_with_child` on a paragraph's content: skip leading
`LineBreak`s, then demand an exact `Str` match. -/
def startsWithChild (content : List Inline) (t : Txt) : Bool :=
  match content.dropWhile isLineBreakB with
  | [] => false
  | x :: _ => matchesText x t

/-- `paragraph_contains_child` on a paragraph's content. -/
def containsChild (content : List Inline) (t : Txt) : Bool :=
  content.any (fun x => matchesText x t)

/-- `is_epub`: the format string starts with `epub`. -/
def is_epub (fmt : Txt) : Bool := (txt "epub").isPrefixOf fmt

/-- The `justify` helper of the pandoc filter: split off the preserved
leading `LineBreak`s, drop the leading run of `LineBreak`s and marker
tokens, and re-emit per format. -/
def justify (fmt : Txt) (content : List Inline)
    (token xhtml_class latex_env docx_style : Txt) : Block :=
  let lbs := content.takeWhile isLineBreakB
  let children := content.dropWhile (fun e => isLineBreakB e || matchesText e token)
  if fmt = txt "html" ∨ is_epub fmt = true then
    .div [.para lbs, .para children] [(txt "class", xhtml_class)]
  else if fmt = txt "latex" then
    .para (.rawInline (txt "latex") (txt "\\begin\x7b" ++ latex_env ++ txt "\x7d") ::
           children ++
           [.rawInline (txt "latex") (txt "\\end\x7b" ++ latex_env ++ txt "\x7d"),
            .rawInline (txt "latex") (txt "\\bigskip")])
  else if fmt = txt "docx" then
    .div [.para lbs, .para children] [(txt "custom-style", docx_style)]
  else
    .div [.para lbs, .para children] []

/-- The `section_sep` helper: replacement for a `+++` paragraph, per format;
unknown formats return the element unchanged. -/
def section_sep (fmt : Txt) (b : Block) : Block :=
  if fmt = txt "html" ∨ is_epub fmt = true then
    .rawBlock (txt "html") (txt "<div class=\"sep\">• • •</div>")
  else if fmt = txt "latex" then
    .para [.rawInline fmt (txt "\\bigskip"),
           .rawInline fmt (txt "\\begin\x7bcenter\x7d"),
           .str (txt "• • •"),
           .rawInline fmt (txt "\\end\x7bcenter\x7d"),
           .rawInline fmt (txt "\\bigskip")]
  else if fmt = txt "docx" then
    justify fmt [.str (txt "• • •")] CENTER_JUSTIFY (txt "center") (txt "center") (txt "Centered")
  else
    b

/-- The `newpage` helper: format-specific forced page break blocks. -/
def newpage (fmt : Txt) : List Block :=
  if fmt = txt "latex" then [.rawBlock fmt (txt "\\newpage")]
  else if is_epub fmt = true then [.rawBlock (txt "html") (txt "<p class=\"pagebreak\"></p>")]
  else if fmt = txt "docx" then
    [.div [.para [.str []]] [(txt "custom-style", txt "NewPage")]]
  else []

/-- The loop of `check_for_simple_pattern`: first pattern (in table order)
whose token occurs wins; its last occurrence is replaced by the metadata
value; no pattern leaves the text unchanged. -/
def simpleLoop (m : Meta) : List (Txt × Txt) → Txt → Txt
  | [], s => s
  | (tok, key) :: rest, s =>
    match lastSplit tok s with
    | some (p, q) => p ++ getMetaTxt m key ++ q
    | none => simpleLoop m rest s

/-- `check_for_simple_pattern` on the text of a `Str` leaf. -/
def check_for_simple_pattern (m : Meta) (s : Txt) : Txt :=
  simpleLoop m SIMPLE_PATTERNS s

/-- The inline part of `transform`: the `%author%` branch, then the simple
placeholder patterns; other inlines pass through unchanged. -/
def transformInline (m : Meta) : Inline → Inline
  | .str s =>
    match lastSplit AUTHOR_PAT s with
    | some (p, q) => .str (p ++ authorJoin (getAuthors m) ++ q)
    | none => .str (check_for_simple_pattern m s)
  | .lineBreak => .lineBreak
  | .rawInline f t => .rawInline f t

/-- The block part of `transform`: the `elif` chain of the filter, in source
order.  The only fatal branch is the deprecated `%newpage%` marker. -/
def transformBlock (fmt : Txt) (_m : Meta) : Block → Except Txt Block
  | .header lvl is =>
    if lvl = 1 then
      if is.isEmpty then
        if fmt = txt "latex" ∨ fmt = txt "docx" then .ok (.div (newpage fmt) [])
        else .ok (.header lvl is)
      else
        if is_epub fmt = false then .ok (.div (newpage fmt ++ [.header lvl is]) [])
        else .ok (.header lvl is)
    else .ok (.header lvl is)
  | .para is =>
    if containsChild is NEWPAGE_TOK then
      .error (txt "%newpage% is no longer supported.")
    else if startsWithChild is LEFT_JUSTIFY then
      .ok (justify fmt is LEFT_JUSTIFY (txt "left") (txt "flushleft") (txt "JustifyLeft"))
    else if startsWithChild is CENTER_JUSTIFY then
      .ok (justify fmt is CENTER_JUSTIFY (txt "center") (txt "center") (txt "Centered"))
    else if startsWithChild is RIGHT_JUSTIFY then
      .ok (justify fmt is RIGHT_JUSTIFY (txt "right") (txt "flushright") (txt "JustifyRight"))
    else if containsChild is SEP_TOK then
      .ok (section_sep fmt (.para is))
    else
      .ok (.para is)
  | .div cs attrs => .ok (.div cs attrs)
  | .rawBlock f t => .ok (.rawBlock f t)

mutual

/-- The depth-first walk of `run_filter` on one node: inline children are
substituted first, block children are rewritten first, then the action is
applied to the node itself; a fatal branch aborts the whole pass. -/
def walkBlock (fmt : Txt) (m : Meta) : Block → Except Txt Block
  | .header lvl is => transformBlock fmt m (.header lvl (is.map (transformInline m)))
  | .para is => transformBlock fmt m (.para (is.map (transformInline m)))
  | .div cs attrs =>
    match walkBlocks fmt m cs with
    | .error e => .error e
    | .ok cs2 => transformBlock fmt m (.div cs2 attrs)
  | .rawBlock f t => transformBlock fmt m (.rawBlock f t)

/-- The depth-first walk of `run_filter` over a forest of blocks, in sibling
order. -/
def walkBlocks (fmt : Txt) (m : Meta) : List Block → Except Txt (List Block)
  | [] => .ok []
  | b :: rest =>
    match walkBlock fmt m b with
    | .error e => .error e
    | .ok b2 =>
      match walkBlocks fmt m rest with
      | .error e => .error e
      | .ok bs => .ok (b2 :: bs)

end

/-- The required-key table of `validate_metadata`, in source order. -/
def REQUIRED_KEYS : List Txt :=
  [txt "title", txt "author", txt "copyright.owner", txt "copyright.year",
   txt "publisher", txt "language", txt "genre"]

/-- The abort message of `validate_metadata` for a missing dotted key. -/
def missingMsg (key : Txt) : Txt :=
  txt "Missing required \"" ++ key ++ txt "\" in metadata."

/-- The drill-down loop of `validate_metadata`: `v = d.get(k)` then
`d = v if v else {}`.  Calling `.get` on a truthy non-mapping value raises
`AttributeError` in Python, modelled as a distinct fatal error. -/
def drillLoop : Meta → Option Meta → List Txt → Except Txt (Option Meta)
  | _, v, [] => .ok v
  | .map es, _, k :: ks =>
    let v2 := lookupTxt k es
    let d2 := match v2 with
              | some x => if truthy x then x else Meta.map []
              | none => Meta.map []
    drillLoop d2 v2 ks
  | .str _, _, _ :: _ => .error (txt "AttributeError")
  | .list _, _, _ :: _ => .error (txt "AttributeError")

/-- Validation of a single required dotted key: drill down, then abort with
the key-naming message when the final value is missing or falsy. -/
def validateKey (m : Meta) (key : Txt) : Except Txt Unit :=
  match drillLoop m none (splitDot key) with
  | .error e => .error e
  | .ok none => .error (missingMsg key)
  | .ok (some v) => if truthy v then .ok () else .error (missingMsg key)

/-- The key loop of `validate_metadata`. -/
def validateKeys (m : Meta) : List Txt → Except Txt Unit
  | [] => .ok ()
  | k :: ks =>
    match validateKey m k with
    | .error e => .error e
    | .ok _ => validateKeys m ks

/-- `validate_metadata`: all seven required keys, in source order. -/
def validate_metadata (m : Meta) : Except Txt Unit :=
  validateKeys m REQUIRED_KEYS

/-- Does a required key have a (truthy) value under the drill-down lookup? -/
def hasValueB (m : Meta) (key : Txt) : Bool :=
  match drillLoop m none (splitDot key) with
  | .ok (some v) => truthy v
  | .ok none => false
  | .error _ => false

/-- One whole filter pass: `prepare` (metadata validation) followed by the
tree walk, as `run_filter(transform, prepare=prepare)` performs it. -/
def runFilter (fmt : Txt) (m : Meta) (tree : List Block) : Except Txt (List Block) :=
  match validate_metadata m with
  | .error e => .error e
  | .ok _ => walkBlocks fmt m tree

/-- Decimal rendering of a natural number. -/
def natToTxt (n : Nat) : Txt := (Nat.repr n).data

/-- Identifier pattern `navPoint-N` of `fix_toc_ncx`. -/
def navPointId (n : Nat) : Txt := txt "navPoint-" ++ natToTxt n

/-- Identifier pattern `toc-li-N` of `fix_nav_xhtml`. -/
def tocLiId (n : Nat) : Txt := txt "toc-li-" ++ natToTxt n

/-- Direct children of the `navMap` root in the numbered-entry encoding:
`navPoint` entries (identifier attribute and label text) and stray text
nodes.  The label stands for the stripped text of the entry's first `text`
element; a missing or all-whitespace text is the empty label. -/
inductive NcxNode where
  | navPoint (idAttr : Txt) (label : Txt)
  | textNode (data : Txt)
deriving DecidableEq

/-- Keep test of the `fix_toc_ncx` removal loop: a `navPoint` is removed
when its label is empty or equals the book title; text nodes survive this
phase. -/
def ncxKeep (title : Txt) : NcxNode → Bool
  | .navPoint _ label => !(label.isEmpty || decide (label = title))
  | .textNode _ => true

/-- The renumbering loop of `fix_toc_ncx`: `navPoint`s get identifiers
`navPoint-N` numbered sequentially, text nodes do not consume a number. -/
def renumberNcx : Nat → List NcxNode → List NcxNode
  | _, [] => []
  | n, .navPoint _ label :: rest => .navPoint (navPointId n) label :: renumberNcx (n + 1) rest
  | n, .textNode d :: rest => .textNode d :: renumberNcx n rest

/-- `strip_text_children` on the `navMap` root, as Python executes it: the
`for child in element.childNodes` loop iterates the LIVE minidom child list
while `removeChild` shifts it left, so after each removed text node the
iterator skips the immediately following child, which survives unexamined.
In a run of consecutive text children every second one therefore remains. -/
def stripTextNcx : List NcxNode → List NcxNode
  | [] => []
  | .navPoint i lab :: rest => .navPoint i lab :: stripTextNcx rest
  | .textNode _ :: [] => []
  | .textNode _ :: x :: rest => x :: stripTextNcx rest

/-- `fix_toc_ncx` on the children of `navMap`: drop bad entries, renumber the
survivors from 1, then run the (live-iterating) text-node strip. -/
def fix_toc_ncx (title : Txt) (navMap : List NcxNode) : List NcxNode :=
  stripTextNcx (renumberNcx 1 (navMap.filter (ncxKeep title)))

/-- Direct children of the TOC `ol` in the nested-list encoding: `li` items
(identifier attribute and the text of each contained link) and stray text
nodes.  An `li` without any link is the structural-error case. -/
inductive OlNode where
  | li (idAttr : Txt) (links : List Txt)
  | textNode (data : Txt)
deriving DecidableEq

/-- The removal loop of `fix_nav_xhtml` over the list items: an `li` with no
link is a fatal structural error; an `li` whose first link text is empty or
equals the book title is dropped. -/
def checkFilterLis (title : Txt) : List OlNode → Except Txt (List OlNode)
  | [] => .ok []
  | .li _ [] :: _ => .error (txt "Malformed table of contents: No <a> in <li>.")
  | .li idA (l0 :: ls) :: rest =>
    match checkFilterLis title rest with
    | .error e => .error e
    | .ok rest2 =>
      if l0 = [] ∨ l0 = title then .ok rest2
      else .ok (.li idA (l0 :: ls) :: rest2)
  | .textNode d :: rest =>
    match checkFilterLis title rest with
    | .error e => .error e
    | .ok rest2 => .ok (.textNode d :: rest2)

/-- The renumbering loop of `fix_nav_xhtml`: `li` items get identifiers
`toc-li-N` numbered sequentially. -/
def renumberOl : Nat → List OlNode → List OlNode
  | _, [] => []
  | n, .li _ links :: rest => .li (tocLiId n) links :: renumberOl (n + 1) rest
  | n, .textNode d :: rest => .textNode d :: renumberOl n rest

/-- `strip_text_children` on the TOC `ol`, with the same live-iteration
behaviour as `stripTextNcx`: the child immediately following each removed
text node is skipped and survives. -/
def stripTextOl : List OlNode → List OlNode
  | [] => []
  | .li i links :: rest => .li i links :: stripTextOl rest
  | .textNode _ :: [] => []
  | .textNode _ :: x :: rest => x :: stripTextOl rest

/-- The `ol`-rewriting core of `fix_nav_xhtml`. -/
def fixNavOl (title : Txt) (ol : List OlNode) : Except Txt (List OlNode) :=
  match checkFilterLis title ol with
  | .error e => .error e
  | .ok kept => .ok (stripTextOl (renumberOl 1 kept))

/-- A `nav` element of the nested-list encoding: its `id` attribute (if
any) and the `ol` lists it contains. -/
structure Nav where
  idAttr : Option Txt
  ols : List (List OlNode)
deriving DecidableEq

/-- `fix_nav_xhtml` on the list of `nav` elements of the document: locate
the first `nav` with `id="toc"` (fatal if absent), take its first `ol`
(fatal if absent) and rewrite it in place. -/
def fix_nav_xhtml (title : Txt) : List Nav → Except Txt (List Nav)
  | [] => .error (txt "Malformed table of contents: No TOC <nav>.")
  | nv :: rest =>
    if nv.idAttr = some (txt "toc") then
      match nv.ols with
      | [] => .error (txt "Malformed table of contents: No list in <nav>.")
      | ol :: others =>
        match fixNavOl title ol with
        | .error e => .error e
        | .ok ol2 => .ok (⟨nv.idAttr, ol2 :: others⟩ :: rest)
    else
      match fix_nav_xhtml title rest with
      | .error e => .error e
      | .ok rest2 => .ok (nv :: rest2)

/-- All placeholder tokens the substitutor recognizes. -/
def PLACEHOLDER_TOKS : List Txt :=
  AUTHOR_PAT :: SIMPLE_PATTERNS.map (fun p => p.1)

/-- All paragraph-level marker tokens: justification markers, the section
separator and the deprecated page-break marker. -/
def MARKER_TOKS : List Txt :=
  [LEFT_JUSTIFY, CENTER_JUSTIFY, RIGHT_JUSTIFY, SEP_TOK, NEWPAGE_TOK]

/-- A `Str` text free of every placeholder token. -/
def cleanStr (s : Txt) : Bool :=
  PLACEHOLDER_TOKS.all (fun t => !hasSub t s)

/-- An inline free of placeholder tokens. -/
def cleanInline : Inline → Bool
  | .str s => cleanStr s
  | .lineBreak => true
  | .rawInline _ _ => true

mutual

/-- A marker-free, heading-free block: not a heading, carries no marker
token as a paragraph child, no text carries a placeholder. -/
def cleanBlock : Block → Bool
  | .header _ _ => false
  | .para is =>
    is.all cleanInline && MARKER_TOKS.all (fun t => !containsChild is t)
  | .div cs _ => cleanBlocks cs
  | .rawBlock _ _ => true

/-- A marker-free, heading-free forest. -/
def cleanBlocks : List Block → Bool
  | [] => true
  | b :: rest => cleanBlock b && cleanBlocks rest

end

mutual

/-- Does this block (at any nesting depth) hold a paragraph with the
`%newpage%` token among its children? -/
def hasNewpageBlock : Block → Bool
  | .para is => containsChild is NEWPAGE_TOK
  | .div cs _ => hasNewpageBlocks cs
  | .header _ _ => false
  | .rawBlock _ _ => false

/-- Does some paragraph of the forest contain the `%newpage%` token? -/
def hasNewpageBlocks : List Block → Bool
  | [] => false
  | b :: rest => hasNewpageBlock b || hasNewpageBlocks rest

end

/-- Head of a list is not dropped by the `dropwhile` of `justify`: either
the list is empty or its head is neither a `LineBreak` nor the marker. -/
def dropStop (token : Txt) : List Inline → Bool
  | [] => true
  | x :: _ => !(isLineBreakB x || matchesText x token)

/-- The three justification rows: marker token, xhtml class, latex
environment, docx style. -/
def JUSTIFY_TABLE : List (Txt × Txt × Txt × Txt) :=
  [(LEFT_JUSTIFY, txt "left", txt "flushleft", txt "JustifyLeft"),
   (CENTER_JUSTIFY, txt "center", txt "center", txt "Centered"),
   (RIGHT_JUSTIFY, txt "right", txt "flushright", txt "JustifyRight")]

/-! ### String-matching lemmas -/

/-- The empty token occurs in every string. -/
theorem hasSub_nil (s : Txt) : hasSub [] s = true := by
  cases s <;> simp [hasSub]

/-- `lastSplit` finds no split exactly when the token does not occur. -/
theorem lastSplit_none_iff (tok : Txt) (s : Txt) :
    lastSplit tok s = none ↔ hasSub tok s = false := by
  induction s with
  | nil =>
    by_cases h : tok = [] <;> simp [lastSplit, hasSub, h]
  | cons c rest ih =>
    simp only [lastSplit, hasSub]
    cases hs : lastSplit tok rest with
    | some p => simp [hs, ← ih, Bool.or_eq_false_iff]
    | none =>
      by_cases hp : tok.isPrefixOf (c :: rest) = true <;>
        simp [hs, hp, ← ih, Bool.or_eq_false_iff]

/-- A list is a prefix-test match of itself followed by anything. -/
theorem isPrefixOf_self_append (t s : Txt) : t.isPrefixOf (t ++ s) = true := by
  induction t with
  | nil => simp [List.isPrefixOf]
  | cons c t ih => simp [List.isPrefixOf, ih]

/-- `lastSplit` returns the decomposition at the last occurrence: if no
occurrence of the token starts strictly after `pre`, the split is exactly
`(pre, suf)`. -/
theorem lastSplit_last (tok pre suf : Txt)
    (h : hasSub tok (tok.drop 1 ++ suf) = false) :
    lastSplit tok (pre ++ tok ++ suf) = some (pre, suf) := by
  induction pre with
  | nil =>
    cases htok : tok with
    | nil => rw [htok] at h; rw [hasSub_nil] at h; exact absurd h (by simp)
    | cons t0 t1 =>
      subst htok
      have hnone : lastSplit (t0 :: t1) (t1 ++ suf) = none := by
        rw [lastSplit_none_iff]
        simpa using h
      have hpre : (t0 :: t1).isPrefixOf (t0 :: (t1 ++ suf)) = true := by
        simp
      have hdrop : List.drop (t0 :: t1).length (t0 :: (t1 ++ suf)) = suf := by
        simp
      show lastSplit (t0 :: t1) ([] ++ (t0 :: t1) ++ suf) = some ([], suf)
      rw [List.nil_append, List.cons_append]
      rw [lastSplit]
      rw [hnone, hpre]
      simp only [if_true, hdrop]
  | cons c pre ih =>
    show lastSplit tok ((c :: pre) ++ tok ++ suf) = some (c :: pre, suf)
    rw [List.cons_append, List.cons_append, lastSplit]
    rw [ih]

/-- Occurrence in a decomposed string: the pinning hypothesis of
`lastSplit_last` rules out any occurrence inside the suffix as well. -/
theorem hasSub_of_append (tok p q : Txt) (h : hasSub tok q = true) :
    hasSub tok (p ++ q) = true := by
  induction p with
  | nil => simpa using h
  | cons c p ih => simp [hasSub, ih]

/-! ### dropWhile / takeWhile helpers -/

/-- `dropWhile` consumes a fully-satisfying prefix. -/
theorem dropWhile_append_all {α : Type} (p : α → Bool) (l1 l2 : List α)
    (h : ∀ a ∈ l1, p a = true) :
    (l1 ++ l2).dropWhile p = l2.dropWhile p := by
  induction l1 with
  | nil => simp
  | cons c l1 ih =>
    have hc : p c = true := h c (by simp)
    simp only [List.cons_append, List.dropWhile_cons, hc, if_true]
    exact ih (fun a ha => h a (by simp [ha]))

/-- `takeWhile` keeps a fully-satisfying prefix. -/
theorem takeWhile_append_all {α : Type} (p : α → Bool) (l1 l2 : List α)
    (h : ∀ a ∈ l1, p a = true) :
    (l1 ++ l2).takeWhile p = l1 ++ l2.takeWhile p := by
  induction l1 with
  | nil => simp
  | cons c l1 ih =>
    have hc : p c = true := h c (by simp)
    simp only [List.cons_append, List.takeWhile_cons, hc, if_true]
    rw [ih (fun a ha => h a (by simp [ha]))]

/-- Members of `dropWhile`'s result are members of the original list. -/
theorem mem_of_mem_dropWhile {α : Type} (p : α → Bool) (l : List α) (x : α)
    (h : x ∈ l.dropWhile p) : x ∈ l := by
  induction l with
  | nil => simp at h
  | cons c l ih =>
    rw [List.dropWhile_cons] at h
    by_cases hc : p c = true
    · simp only [hc, if_true] at h
      exact List.mem_cons_of_mem _ (ih h)
    · simp only [Bool.not_eq_true] at hc
      simp only [hc, Bool.false_eq_true, if_false] at h
      exact h

/-- Members of `takeWhile`'s result satisfy the predicate. -/
theorem takeWhile_mem_prop {α : Type} (p : α → Bool) (l : List α) (x : α)
    (h : x ∈ l.takeWhile p) : p x = true := by
  induction l with
  | nil => simp at h
  | cons a l ih =>
    rw [List.takeWhile_cons] at h
    by_cases ha : p a = true
    · simp only [ha, if_true] at h
      rcases List.mem_cons.mp h with h2 | h2
      · subst h2; exact ha
      · exact ih h2
    · rw [Bool.not_eq_true] at ha
      simp [ha] at h

/-- What remains after `justify`'s `dropwhile` never starts with another
droppable element. -/
theorem dropStop_dropWhile (tok : Txt) (l : List Inline) :
    dropStop tok (l.dropWhile (fun e => isLineBreakB e || matchesText e tok)) = true := by
  induction l with
  | nil => rfl
  | cons a l ih =>
    rw [List.dropWhile_cons]
    by_cases ha : (isLineBreakB a || matchesText a tok) = true
    · simp only [ha, if_true]
      exact ih
    · rw [Bool.not_eq_true] at ha
      simp only [ha, Bool.false_eq_true, if_false]
      show (!(isLineBreakB a || matchesText a tok)) = true
      rw [ha]
      rfl

/-! ### Substitutor lemmas -/

/-- When none of the remaining patterns occurs, the pattern loop returns the
text unchanged. -/
theorem simpleLoop_none (m : Meta) (ps : List (Txt × Txt)) (s : Txt)
    (h : ∀ p ∈ ps, hasSub p.1 s = false) : simpleLoop m ps s = s := by
  induction ps with
  | nil => rfl
  | cons p rest ih =>
    obtain ⟨tok, key⟩ := p
    have h0 : hasSub tok s = false := h (tok, key) (by simp)
    have h1 : lastSplit tok s = none := (lastSplit_none_iff _ _).mpr h0
    simp only [simpleLoop, h1]
    exact ih (fun q hq => h q (by simp [hq]))

/-- A placeholder-free `Str` text passes through `transform` unchanged. -/
theorem transformInline_clean (m : Meta) (s : Txt) (h : cleanStr s = true) :
    transformInline m (.str s) = .str s := by
  have hall : ∀ t ∈ PLACEHOLDER_TOKS, hasSub t s = false := by
    intro t ht
    have h2 := List.all_eq_true.mp h t ht
    simpa using h2
  have hauthor : lastSplit AUTHOR_PAT s = none := by
    rw [lastSplit_none_iff]
    exact hall AUTHOR_PAT (by simp [PLACEHOLDER_TOKS])
  simp only [transformInline, hauthor, check_for_simple_pattern]
  rw [simpleLoop_none]
  intro p hp
  exact hall p.1 (List.mem_cons_of_mem _ (List.mem_map_of_mem _ hp))

/-- A placeholder-free inline passes through `transform` unchanged. -/
theorem transformInline_clean_inline (m : Meta) (i : Inline)
    (h : cleanInline i = true) : transformInline m i = i := by
  cases i with
  | str s => exact transformInline_clean m s h
  | lineBreak => rfl
  | rawInline f t => rfl

/-- A list of placeholder-free inlines maps to itself. -/
theorem map_transformInline_clean (m : Meta) (is : List Inline)
    (h : is.all cleanInline = true) : is.map (transformInline m) = is := by
  induction is with
  | nil => rfl
  | cons i rest ih =>
    rw [List.all_cons, Bool.and_eq_true] at h
    rw [List.map_cons, transformInline_clean_inline m i h.1, ih h.2]

/-- A paragraph with no child equal to the token cannot start with it. -/
theorem startsWithChild_false (is : List Inline) (t : Txt)
    (h : containsChild is t = false) : startsWithChild is t = false := by
  unfold startsWithChild
  cases hd : is.dropWhile isLineBreakB with
  | nil => rfl
  | cons x rest =>
    have hx : x ∈ is := by
      apply mem_of_mem_dropWhile isLineBreakB is x
      rw [hd]
      exact List.mem_cons_self x rest
    unfold containsChild at h
    rw [List.any_eq_false] at h
    have h2 := h x hx
    simpa using h2

/-! ### Transform-engine error lemmas -/

/-- `transform` can only abort with the `%newpage%` message. -/
theorem transformBlock_error_msg (fmt : Txt) (m : Meta) (b : Block) (e : Txt)
    (h : transformBlock fmt m b = .error e) : e = NEWPAGE_MSG := by
  cases b with
  | header lvl is =>
    simp only [transformBlock] at h
    split_ifs at h
  | para is =>
    simp only [transformBlock] at h
    split_ifs at h
    injection h with h2
    exact h2.symm
  | div cs attrs => exact Except.noConfusion h
  | rawBlock f t => exact Except.noConfusion h

/-- A paragraph containing the `%newpage%` token makes `transform` abort. -/
theorem transformBlock_newpage (fmt : Txt) (m : Meta) (is : List Inline)
    (h : containsChild is NEWPAGE_TOK = true) :
    transformBlock fmt m (.para is) = .error NEWPAGE_MSG := by
  simp only [transformBlock, h, if_true]
  rfl

/-- The walk can only abort with the `%newpage%` message (joint statement
for one node and for a forest). -/
theorem walk_error_msg (fmt : Txt) (m : Meta) :
    (∀ b : Block, ∀ e : Txt, walkBlock fmt m b = .error e → e = NEWPAGE_MSG) ∧
    (∀ l : List Block, ∀ e : Txt, walkBlocks fmt m l = .error e → e = NEWPAGE_MSG) := by
  refine walkBlock.mutual_induct fmt m
    (fun b => ∀ e : Txt, walkBlock fmt m b = .error e → e = NEWPAGE_MSG)
    (fun l => ∀ e : Txt, walkBlocks fmt m l = .error e → e = NEWPAGE_MSG)
    ?_ ?_ ?_ ?_ ?_ ?_ ?_ ?_ ?_
  · intro lvl is e h
    simp only [walkBlock] at h
    exact transformBlock_error_msg fmt m _ e h
  · intro is e h
    simp only [walkBlock] at h
    exact transformBlock_error_msg fmt m _ e h
  · intro cs attrs e2 hcs ih e h
    simp only [walkBlock, hcs] at h
    injection h with h2
    exact h2 ▸ ih e2 hcs
  · intro cs attrs bs hcs ih e h
    simp only [walkBlock, hcs] at h
    exact transformBlock_error_msg fmt m _ e h
  · intro f t e h
    simp only [walkBlock] at h
    exact transformBlock_error_msg fmt m _ e h
  · intro e h
    simp only [walkBlocks] at h
    exact Except.noConfusion h
  · intro b rest e2 hb ih e h
    simp only [walkBlocks, hb] at h
    injection h with h2
    exact h2 ▸ ih e2 hb
  · intro b rest b2 hb e2 hrest ihb ihrest e h
    simp only [walkBlocks, hb, hrest] at h
    injection h with h2
    exact h2 ▸ ihrest e2 hrest
  · intro b rest b2 hb bs hrest ihb ihrest e h
    simp only [walkBlocks, hb, hrest] at h
    exact Except.noConfusion h

/-- The `%newpage%` token itself is not rewritten by the substitutor. -/
theorem transformInline_newpage (m : Meta) :
    transformInline m (.str NEWPAGE_TOK) = .str NEWPAGE_TOK := by rfl

/-- Substitution of a paragraph's children preserves the presence of the
`%newpage%` token. -/
theorem containsChild_map_newpage (m : Meta) (is : List Inline)
    (h : containsChild is NEWPAGE_TOK = true) :
    containsChild (is.map (transformInline m)) NEWPAGE_TOK = true := by
  unfold containsChild at h ⊢
  rw [List.any_eq_true] at h ⊢
  obtain ⟨x, hx, hm⟩ := h
  refine ⟨transformInline m x, List.mem_map_of_mem _ hx, ?_⟩
  cases x with
  | str s =>
    have hs : s = NEWPAGE_TOK := by simpa [matchesText] using hm
    subst hs
    rw [transformInline_newpage]
    exact hm
  | lineBreak => simp [matchesText] at hm
  | rawInline f t => simp [matchesText] at hm

/-- A paragraph carrying no marker token is left unchanged by `transform`. -/
theorem transformBlock_clean_para (fmt : Txt) (m : Meta) (is : List Inline)
    (hm : MARKER_TOKS.all (fun t => !containsChild is t) = true) :
    transformBlock fmt m (.para is) = .ok (.para is) := by
  have hof : ∀ t ∈ MARKER_TOKS, containsChild is t = false := by
    intro t ht
    have h2 := List.all_eq_true.mp hm t ht
    simpa using h2
  have h1 : containsChild is NEWPAGE_TOK = false := hof _ (by simp [MARKER_TOKS])
  have h2 : startsWithChild is LEFT_JUSTIFY = false :=
    startsWithChild_false _ _ (hof _ (by simp [MARKER_TOKS]))
  have h3 : startsWithChild is CENTER_JUSTIFY = false :=
    startsWithChild_false _ _ (hof _ (by simp [MARKER_TOKS]))
  have h4 : startsWithChild is RIGHT_JUSTIFY = false :=
    startsWithChild_false _ _ (hof _ (by simp [MARKER_TOKS]))
  have h5 : containsChild is SEP_TOK = false := hof _ (by simp [MARKER_TOKS])
  simp only [transformBlock, h1, h2, h3, h4, h5, Bool.false_eq_true, if_false]

/-- A forest containing a `%newpage%` paragraph never walks to a success
(joint statement for one node and for a forest). -/
theorem walk_newpage_not_ok (fmt : Txt) (m : Meta) :
    (∀ b : Block, hasNewpageBlock b = true → ∀ r, walkBlock fmt m b ≠ .ok r) ∧
    (∀ l : List Block, hasNewpageBlocks l = true → ∀ r, walkBlocks fmt m l ≠ .ok r) := by
  refine hasNewpageBlock.mutual_induct
    (fun b => hasNewpageBlock b = true → ∀ r, walkBlock fmt m b ≠ .ok r)
    (fun l => hasNewpageBlocks l = true → ∀ r, walkBlocks fmt m l ≠ .ok r)
    ?_ ?_ ?_ ?_ ?_ ?_
  · intro is h r hcon
    have he := transformBlock_newpage fmt m (is.map (transformInline m))
      (containsChild_map_newpage m is h)
    simp only [walkBlock, he] at hcon
    exact Except.noConfusion hcon
  · intro cs attrs ih h r hcon
    simp only [walkBlock] at hcon
    cases hcs : walkBlocks fmt m cs with
    | error e => rw [hcs] at hcon; exact Except.noConfusion hcon
    | ok cs2 => exact ih h cs2 hcs
  · intro lvl is h
    simp [hasNewpageBlock] at h
  · intro f t h
    simp [hasNewpageBlock] at h
  · intro h
    simp [hasNewpageBlocks] at h
  · intro b rest ihb ihrest h r hcon
    rw [hasNewpageBlocks, Bool.or_eq_true] at h
    simp only [walkBlocks] at hcon
    cases hb : walkBlock fmt m b with
    | error e => rw [hb] at hcon; exact Except.noConfusion hcon
    | ok b2 =>
      rcases h with h1 | h2
      · exact ihb h1 b2 hb
      · rw [hb] at hcon
        cases hrest : walkBlocks fmt m rest with
        | error e => rw [hrest] at hcon; exact Except.noConfusion hcon
        | ok bs => exact ihrest h2 bs hrest

/-- A marker-free, heading-free forest is walked to itself (joint statement
for one node and for a forest). -/
theorem walk_clean (fmt : Txt) (m : Meta) :
    (∀ b : Block, cleanBlock b = true → walkBlock fmt m b = .ok b) ∧
    (∀ l : List Block, cleanBlocks l = true → walkBlocks fmt m l = .ok l) := by
  refine cleanBlock.mutual_induct
    (fun b => cleanBlock b = true → walkBlock fmt m b = .ok b)
    (fun l => cleanBlocks l = true → walkBlocks fmt m l = .ok l)
    ?_ ?_ ?_ ?_ ?_ ?_
  · intro lvl is h
    simp [cleanBlock] at h
  · intro is h
    rw [cleanBlock, Bool.and_eq_true] at h
    obtain ⟨hins, hmark⟩ := h
    simp only [walkBlock, map_transformInline_clean m is hins,
      transformBlock_clean_para fmt m is hmark]
  · intro cs attrs ih h
    rw [cleanBlock] at h
    simp only [walkBlock, ih h, transformBlock]
  · intro f t h
    simp only [walkBlock, transformBlock]
  · intro h
    rfl
  · intro b rest ihb ihrest h
    rw [cleanBlocks, Bool.and_eq_true] at h
    simp only [walkBlocks, ihb h.1, ihrest h.2]

/-! ### Metadata-validation lemmas -/

/-- The drill-down loop can only fail with `AttributeError`. -/
theorem drillLoop_error_msg (ks : List Txt) :
    ∀ (m : Meta) (v : Option Meta) (e : Txt),
      drillLoop m v ks = .error e → e = txt "AttributeError" := by
  induction ks with
  | nil =>
    intro m v e h
    simp only [drillLoop] at h
    exact Except.noConfusion h
  | cons k ks ih =>
    intro m v e h
    cases m with
    | map es =>
      simp only [drillLoop] at h
      exact ih _ _ e h
    | str s =>
      simp only [drillLoop] at h
      injection h with h2
      exact h2.symm
    | list l =>
      simp only [drillLoop] at h
      injection h with h2
      exact h2.symm

/-- A single key validates exactly when its drilled value is truthy. -/
theorem validateKey_ok_iff (m : Meta) (k : Txt) :
    validateKey m k = .ok () ↔ hasValueB m k = true := by
  unfold validateKey hasValueB
  cases hd : drillLoop m none (splitDot k) with
  | error e => simp
  | ok v =>
    cases v with
    | none => simp
    | some x =>
      by_cases ht : truthy x = true
      · simp [ht]
      · rw [Bool.not_eq_true] at ht
        simp [ht]

/-- Failure of a single-key validation: either the Python `AttributeError`
or the key-naming abort, the latter with the key's value missing/empty. -/
theorem validateKey_error (m : Meta) (k : Txt) (e : Txt)
    (h : validateKey m k = .error e) :
    e = txt "AttributeError" ∨ (e = missingMsg k ∧ hasValueB m k = false) := by
  unfold validateKey at h
  unfold hasValueB
  cases hd : drillLoop m none (splitDot k) with
  | error e2 =>
    rw [hd] at h
    injection h with h2
    exact Or.inl (h2 ▸ drillLoop_error_msg _ m none e2 hd)
  | ok v =>
    rw [hd] at h
    cases v with
    | none =>
      injection h with h2
      exact Or.inr ⟨h2.symm, rfl⟩
    | some x =>
      dsimp only at h ⊢
      by_cases ht : truthy x = true
      · rw [ht] at h
        simp at h
      · rw [Bool.not_eq_true] at ht
        rw [ht] at h
        simp only [Bool.false_eq_true, if_false] at h
        injection h with h2
        exact Or.inr ⟨h2.symm, ht⟩

/-- The key loop succeeds exactly when every key has a truthy value. -/
theorem validateKeys_ok_iff (m : Meta) (ks : List Txt) :
    validateKeys m ks = .ok () ↔ ∀ k ∈ ks, hasValueB m k = true := by
  induction ks with
  | nil => simp [validateKeys]
  | cons k ks ih =>
    simp only [validateKeys]
    cases hk : validateKey m k with
    | error e =>
      constructor
      · intro h; exact absurd h (by simp)
      · intro h
        have h1 : hasValueB m k = true := h k (by simp)
        have h2 : validateKey m k = .ok () := (validateKey_ok_iff m k).mpr h1
        rw [hk] at h2
        exact Except.noConfusion h2
    | ok u =>
      cases u
      rw [ih]
      constructor
      · intro h k2 hk2
        rcases List.mem_cons.mp hk2 with h2 | h2
        · subst h2
          exact (validateKey_ok_iff m k2).mp hk
        · exact h k2 h2
      · intro h k2 hk2
        exact h k2 (List.mem_cons_of_mem _ hk2)

/-- Failure of the key loop: either `AttributeError`, or the abort message
naming some listed key whose value is missing/empty. -/
theorem validateKeys_error (m : Meta) (ks : List Txt) :
    ∀ e : Txt, validateKeys m ks = .error e →
      e = txt "AttributeError" ∨
        ∃ k ∈ ks, e = missingMsg k ∧ hasValueB m k = false := by
  induction ks with
  | nil =>
    intro e h
    simp only [validateKeys] at h
    exact Except.noConfusion h
  | cons k ks ih =>
    intro e h
    simp only [validateKeys] at h
    cases hk : validateKey m k with
    | error e2 =>
      rw [hk] at h
      injection h with h2
      subst h2
      rcases validateKey_error m k e2 hk with h3 | h3
      · exact Or.inl h3
      · exact Or.inr ⟨k, by simp, h3⟩
    | ok u =>
      cases u
      rw [hk] at h
      rcases ih e h with h3 | ⟨k2, hk2, h4⟩
      · exact Or.inl h3
      · exact Or.inr ⟨k2, List.mem_cons_of_mem _ hk2, h4⟩

/-! ### Author-join lemmas -/

/-- The pattern loop substitutes the first table entry whose token occurs,
at that token's last occurrence. -/
theorem simpleLoop_hit (m : Meta) (ps1 : List (Txt × Txt)) (tok key : Txt)
    (ps2 : List (Txt × Txt)) (s pre suf : Txt)
    (hskip : ∀ p ∈ ps1, hasSub p.1 s = false)
    (hsplit : lastSplit tok s = some (pre, suf)) :
    simpleLoop m (ps1 ++ (tok, key) :: ps2) s = pre ++ getMetaTxt m key ++ suf := by
  induction ps1 with
  | nil => simp only [List.nil_append, simpleLoop, hsplit]
  | cons p rest ih =>
    obtain ⟨t2, k2⟩ := p
    have h0 := hskip (t2, k2) (by simp)
    have h1 : lastSplit t2 s = none := (lastSplit_none_iff _ _).mpr h0
    simp only [List.cons_append, simpleLoop, h1]
    exact ih (fun q hq => hskip q (by simp [hq]))

/-! ### Justification-shape lemmas -/

/-- Skipping leading line breaks in a marker-shaped paragraph reaches the
marker. -/
theorem dropWhile_lbs (lbs : List Inline) (x : Inline) (r : List Inline)
    (h : ∀ i ∈ lbs, isLineBreakB i = true) (hx : isLineBreakB x = false) :
    (lbs ++ x :: r).dropWhile isLineBreakB = x :: r := by
  rw [dropWhile_append_all _ lbs (x :: r) h, List.dropWhile_cons, hx]
  simp

/-- The preserved leading line breaks of a marker-shaped paragraph. -/
theorem takeWhile_lbs (lbs : List Inline) (x : Inline) (r : List Inline)
    (h : ∀ i ∈ lbs, isLineBreakB i = true) (hx : isLineBreakB x = false) :
    (lbs ++ x :: r).takeWhile isLineBreakB = lbs := by
  rw [takeWhile_append_all _ lbs (x :: r) h, List.takeWhile_cons, hx]
  simp

/-- Marker matching on a marker-shaped paragraph reduces to comparing the
marker tokens. -/
theorem startsWithChild_shape (lbs : List Inline) (tok : Txt) (r : List Inline)
    (h : ∀ i ∈ lbs, isLineBreakB i = true) (t2 : Txt) :
    startsWithChild (lbs ++ .str tok :: r) t2 = decide (tok = t2) := by
  unfold startsWithChild
  rw [dropWhile_lbs lbs _ r h (by rfl)]
  rfl

/-- The `dropwhile` of `justify` drops the leading line breaks, the marker
and the marker-side line breaks, and stops at the remaining content. -/
theorem dropWhile_justify (tok : Txt) (lbs mid rest : List Inline)
    (h1 : ∀ i ∈ lbs, isLineBreakB i = true)
    (h2 : ∀ i ∈ mid, (isLineBreakB i || matchesText i tok) = true)
    (h3 : dropStop tok rest = true) :
    (lbs ++ .str tok :: (mid ++ rest)).dropWhile
        (fun e => isLineBreakB e || matchesText e tok) = rest := by
  rw [dropWhile_append_all _ lbs _ (fun i hi => by rw [h1 i hi]; rfl)]
  rw [List.dropWhile_cons]
  have hx : (isLineBreakB (.str tok) || matchesText (.str tok) tok) = true := by
    simp [isLineBreakB, matchesText]
  rw [hx]
  simp only [if_true]
  rw [dropWhile_append_all _ mid _ h2]
  cases rest with
  | nil => rfl
  | cons x r2 =>
    rw [List.dropWhile_cons]
    unfold dropStop at h3
    rw [Bool.not_eq_true', Bool.or_eq_false_iff] at h3
    rw [h3.1, h3.2]
    simp

/-! ### Claim theorems -/

/-- C1 — counterexample.  The claim quantifies over EVERY justification
Paragraph, but a justification Paragraph that also carries the `%newpage%`
token among its children is aborted by the earlier `%newpage%` check of the
`elif` chain instead of being re-emitted as a styled Container: the
Paragraph `{-}`,`%newpage%` makes `transform` raise for web-markup. -/
theorem C1_counterexample :
    transformBlock (txt "html") (Meta.map [])
        (.para [.str CENTER_JUSTIFY, .str NEWPAGE_TOK]) = .error NEWPAGE_MSG
    ∧ ∀ b : Block,
        transformBlock (txt "html") (Meta.map [])
          (.para [.str CENTER_JUSTIFY, .str NEWPAGE_TOK]) ≠ .ok b := by
  have h : transformBlock (txt "html") (Meta.map [])
      (.para [.str CENTER_JUSTIFY, .str NEWPAGE_TOK]) = .error NEWPAGE_MSG := rfl
  refine ⟨h, fun b hcon => ?_⟩
  rw [h] at hcon
  exact Except.noConfusion hcon

/-- Dispatch of `transform` to `justify` for a left-justification match. -/
theorem transformBlock_left (fmt : Txt) (m : Meta) (is : List Inline)
    (hnp : containsChild is NEWPAGE_TOK = false)
    (hLt : startsWithChild is LEFT_JUSTIFY = true) :
    transformBlock fmt m (.para is) =
      .ok (justify fmt is LEFT_JUSTIFY (txt "left") (txt "flushleft") (txt "JustifyLeft")) := by
  simp only [transformBlock, hnp, hLt, Bool.false_eq_true, if_false, if_true]

/-- Dispatch of `transform` to `justify` for a centering match. -/
theorem transformBlock_center (fmt : Txt) (m : Meta) (is : List Inline)
    (hnp : containsChild is NEWPAGE_TOK = false)
    (hL : startsWithChild is LEFT_JUSTIFY = false)
    (hCt : startsWithChild is CENTER_JUSTIFY = true) :
    transformBlock fmt m (.para is) =
      .ok (justify fmt is CENTER_JUSTIFY (txt "center") (txt "center") (txt "Centered")) := by
  simp only [transformBlock, hnp, hL, hCt, Bool.false_eq_true, if_false, if_true]

/-- Dispatch of `transform` to `justify` for a right-justification match. -/
theorem transformBlock_right (fmt : Txt) (m : Meta) (is : List Inline)
    (hnp : containsChild is NEWPAGE_TOK = false)
    (hL : startsWithChild is LEFT_JUSTIFY = false)
    (hC : startsWithChild is CENTER_JUSTIFY = false)
    (hRt : startsWithChild is RIGHT_JUSTIFY = true) :
    transformBlock fmt m (.para is) =
      .ok (justify fmt is RIGHT_JUSTIFY (txt "right") (txt "flushright") (txt "JustifyRight")) := by
  simp only [transformBlock, hnp, hL, hC, hRt, Bool.false_eq_true, if_false, if_true]

/-- The output shape of `justify` on a marker-shaped paragraph. -/
theorem justify_shape (fmt : Txt) (tok cls env sty : Txt)
    (lbs mid rest : List Inline)
    (hlbs : ∀ i ∈ lbs, isLineBreakB i = true)
    (hmid : ∀ i ∈ mid, (isLineBreakB i || matchesText i tok) = true)
    (hstop : dropStop tok rest = true) :
    justify fmt (lbs ++ .str tok :: (mid ++ rest)) tok cls env sty =
      (if fmt = txt "html" ∨ is_epub fmt = true then
        Block.div [.para lbs, .para rest] [(txt "class", cls)]
      else if fmt = txt "latex" then
        .para (.rawInline (txt "latex") (txt "\\begin\x7b" ++ env ++ txt "\x7d") ::
               rest ++
               [.rawInline (txt "latex") (txt "\\end\x7b" ++ env ++ txt "\x7d"),
                .rawInline (txt "latex") (txt "\\bigskip")])
      else if fmt = txt "docx" then
        .div [.para lbs, .para rest] [(txt "custom-style", sty)]
      else .div [.para lbs, .para rest] []) := by
  simp only [justify]
  rw [takeWhile_lbs lbs _ _ hlbs (by rfl)]
  rw [dropWhile_justify tok lbs mid rest hlbs hmid hstop]

/-- C1 — amended.  Fix a justification row (marker token, class, latex
environment, docx style).  First part: writing a paragraph's content as
leading LineBreaks, then the marker leaf, then a run of LineBreaks and
(possibly repeated) marker leaves, then the remaining content, `transform`
(absent the `%newpage%` token, whose branch precedes justification) drops
the whole marker-side run — the marker leaf, its adjacent LineBreaks and any
repeated marker leaves — and emits, for web-markup (html) and
portable-ebook (epub), a Container with style class left/center/right
holding a Paragraph of the preserved leading LineBreaks and a Paragraph of
the remaining content, and for the raw-markup latex format a Paragraph of
literal begin/env/end/bigskip text around the remaining content with the
leading LineBreaks dropped.  Second part: EVERY justification Paragraph
(first non-LineBreak child equal to the marker) admits such a
decomposition, so no justification Paragraph is outside the first part's
scope. -/
theorem C1_justification (m : Meta) (fmt : Txt) (tok cls env sty : Txt)
    (hrow : (tok, cls, env, sty) ∈ JUSTIFY_TABLE) :
    (∀ lbs mid rest : List Inline,
      (∀ i ∈ lbs, isLineBreakB i = true) →
      (∀ i ∈ mid, (isLineBreakB i || matchesText i tok) = true) →
      dropStop tok rest = true →
      containsChild (lbs ++ .str tok :: (mid ++ rest)) NEWPAGE_TOK = false →
      ((fmt = txt "html" ∨ is_epub fmt = true) →
        transformBlock fmt m (.para (lbs ++ .str tok :: (mid ++ rest))) =
          .ok (.div [.para lbs, .para rest] [(txt "class", cls)]))
      ∧ transformBlock (txt "latex") m (.para (lbs ++ .str tok :: (mid ++ rest))) =
          .ok (.para (.rawInline (txt "latex") (txt "\\begin\x7b" ++ env ++ txt "\x7d") ::
               rest ++
               [.rawInline (txt "latex") (txt "\\end\x7b" ++ env ++ txt "\x7d"),
                .rawInline (txt "latex") (txt "\\bigskip")])))
    ∧ (∀ content : List Inline, startsWithChild content tok = true →
        ∃ lbs mid rest : List Inline,
          content = lbs ++ .str tok :: (mid ++ rest)
          ∧ (∀ i ∈ lbs, isLineBreakB i = true)
          ∧ (∀ i ∈ mid, (isLineBreakB i || matchesText i tok) = true)
          ∧ dropStop tok rest = true) := by
  constructor
  · intro lbs mid rest hlbs hmid hstop hnp
    have hsw := startsWithChild_shape lbs tok (mid ++ rest) hlbs
    simp only [JUSTIFY_TABLE, List.mem_cons, List.mem_singleton,
      Prod.mk.injEq, List.not_mem_nil, or_false] at hrow
    have hhit : transformBlock fmt m (.para (lbs ++ .str tok :: (mid ++ rest))) =
          .ok (justify fmt (lbs ++ .str tok :: (mid ++ rest)) tok cls env sty)
        ∧ transformBlock (txt "latex") m (.para (lbs ++ .str tok :: (mid ++ rest))) =
          .ok (justify (txt "latex") (lbs ++ .str tok :: (mid ++ rest)) tok cls env sty) := by
      rcases hrow with ⟨rfl, rfl, rfl, rfl⟩ | ⟨rfl, rfl, rfl, rfl⟩ | ⟨rfl, rfl, rfl, rfl⟩
      · have hLt : startsWithChild (lbs ++ .str LEFT_JUSTIFY :: (mid ++ rest))
            LEFT_JUSTIFY = true := by rw [hsw]; decide
        exact ⟨transformBlock_left fmt m _ hnp hLt,
               transformBlock_left (txt "latex") m _ hnp hLt⟩
      · have hL : startsWithChild (lbs ++ .str CENTER_JUSTIFY :: (mid ++ rest))
            LEFT_JUSTIFY = false := by rw [hsw]; decide
        have hCt : startsWithChild (lbs ++ .str CENTER_JUSTIFY :: (mid ++ rest))
            CENTER_JUSTIFY = true := by rw [hsw]; decide
        exact ⟨transformBlock_center fmt m _ hnp hL hCt,
               transformBlock_center (txt "latex") m _ hnp hL hCt⟩
      · have hL : startsWithChild (lbs ++ .str RIGHT_JUSTIFY :: (mid ++ rest))
            LEFT_JUSTIFY = false := by rw [hsw]; decide
        have hC : startsWithChild (lbs ++ .str RIGHT_JUSTIFY :: (mid ++ rest))
            CENTER_JUSTIFY = false := by rw [hsw]; decide
        have hRt : startsWithChild (lbs ++ .str RIGHT_JUSTIFY :: (mid ++ rest))
            RIGHT_JUSTIFY = true := by rw [hsw]; decide
        exact ⟨transformBlock_right fmt m _ hnp hL hC hRt,
               transformBlock_right (txt "latex") m _ hnp hL hC hRt⟩
    constructor
    · intro hf
      rw [hhit.1, justify_shape fmt tok cls env sty lbs mid rest hlbs hmid hstop]
      rw [if_pos hf]
    · rw [hhit.2,
        justify_shape (txt "latex") tok cls env sty lbs mid rest hlbs hmid hstop]
      rw [if_neg (by decide), if_pos rfl]
  · intro content hstart
    unfold startsWithChild at hstart
    cases hd : content.dropWhile isLineBreakB with
    | nil => rw [hd] at hstart; exact absurd hstart (by simp)
    | cons x rest0 =>
      rw [hd] at hstart
      cases x with
      | str s =>
        have hs : s = tok := by simpa [matchesText] using hstart
        subst hs
        refine ⟨content.takeWhile isLineBreakB,
          rest0.takeWhile (fun e => isLineBreakB e || matchesText e s),
          rest0.dropWhile (fun e => isLineBreakB e || matchesText e s),
          ?_, ?_, ?_, ?_⟩
        · rw [List.takeWhile_append_dropWhile]
          conv_lhs => rw [← List.takeWhile_append_dropWhile isLineBreakB content]
          rw [hd]
        · intro i hi
          exact takeWhile_mem_prop isLineBreakB content i hi
        · intro i hi
          exact takeWhile_mem_prop _ rest0 i hi
        · exact dropStop_dropWhile s rest0
      | lineBreak => simp [matchesText] at hstart
      | rawInline f t => simp [matchesText] at hstart

/-- C1 — witness: the paragraph `{-}`, LineBreak, `{-}`, "Hello" — a
justification paragraph whose marker repeats after its LineBreak — loses the
whole marker-side run and becomes, for web-markup, a Container(class=center)
wrapping an empty leading Paragraph and Paragraph("Hello"). -/
theorem C1_justification_witness :
    transformBlock (txt "html") (Meta.map [])
        (.para ([] ++ .str CENTER_JUSTIFY ::
          ([Inline.lineBreak, .str CENTER_JUSTIFY] ++ [.str (txt "Hello")]))) =
      .ok (.div [.para [], .para [.str (txt "Hello")]] [(txt "class", txt "center")]) :=
  (((C1_justification (Meta.map []) (txt "html") CENTER_JUSTIFY
      (txt "center") (txt "center") (txt "Centered") (by decide)).1
    [] [Inline.lineBreak, .str CENTER_JUSTIFY] [.str (txt "Hello")]
    (by simp) (by decide) (by decide) (by decide)).1) (Or.inl rfl)

/-- C3 — counterexample.  A metadata map with non-empty values for exactly
the six keys the claim lists (title, author, copyright.owner,
copyright.year, publisher, language) still fails validation: the code also
requires `genre`, so the claim's "exactly these six keys" if-and-only-if is
false. -/
theorem C3_counterexample :
    validate_metadata (Meta.map
        [(txt "title", Meta.str (txt "T")),
         (txt "author", Meta.list [txt "A"]),
         (txt "copyright", Meta.map
            [(txt "owner", Meta.str (txt "O")),
             (txt "year", Meta.str (txt "2020"))]),
         (txt "publisher", Meta.str (txt "P")),
         (txt "language", Meta.str (txt "en"))]) =
      .error (missingMsg (txt "genre"))
    ∧ ∀ k ∈ [txt "title", txt "author", txt "copyright.owner",
             txt "copyright.year", txt "publisher", txt "language"],
        hasValueB (Meta.map
          [(txt "title", Meta.str (txt "T")),
           (txt "author", Meta.list [txt "A"]),
           (txt "copyright", Meta.map
              [(txt "owner", Meta.str (txt "O")),
               (txt "year", Meta.str (txt "2020"))]),
           (txt "publisher", Meta.str (txt "P")),
           (txt "language", Meta.str (txt "en"))]) k = true := by
  refine ⟨rfl, ?_⟩
  decide

/-- C3 — amended.  The pre-pass validation succeeds if and only if each of
exactly these SEVEN dotted-path keys has a non-empty value: title, author,
copyright.owner, copyright.year, publisher, language and genre.  On failure
it aborts before any node is visited, either with the message naming the
first missing dotted key, or with the `AttributeError` a truthy non-mapping
intermediate value raises. -/
theorem C3_validate_metadata (m : Meta) :
    (validate_metadata m = .ok () ↔ ∀ k ∈ REQUIRED_KEYS, hasValueB m k = true)
    ∧ (∀ e : Txt, validate_metadata m = .error e →
        e = txt "AttributeError" ∨
          ∃ k ∈ REQUIRED_KEYS, e = missingMsg k ∧ hasValueB m k = false)
    ∧ (∀ (fmt : Txt) (tree : List Block) (e : Txt),
        validate_metadata m = .error e → runFilter fmt m tree = .error e) := by
  refine ⟨validateKeys_ok_iff m REQUIRED_KEYS, validateKeys_error m REQUIRED_KEYS,
    fun fmt tree e h => ?_⟩
  unfold runFilter
  rw [h]

/-- C3 — witness: a complete seven-key metadata map validates, an incomplete
one aborts before the walk touches the tree. -/
theorem C3_validate_metadata_witness :
    validate_metadata (Meta.map
        [(txt "title", Meta.str (txt "T")),
         (txt "author", Meta.list [txt "A"]),
         (txt "copyright", Meta.map
            [(txt "owner", Meta.str (txt "O")),
             (txt "year", Meta.str (txt "2020"))]),
         (txt "publisher", Meta.str (txt "P")),
         (txt "language", Meta.str (txt "en")),
         (txt "genre", Meta.str (txt "fiction"))]) = .ok ()
    ∧ runFilter (txt "html") (Meta.map []) [Block.para [.str (txt "x")]] =
        .error (missingMsg (txt "title")) := by
  constructor
  · exact (C3_validate_metadata _).1.mpr (by decide)
  · exact (C3_validate_metadata _).2.2 (txt "html") [Block.para [.str (txt "x")]]
      (missingMsg (txt "title")) rfl

/-- C4 — counterexample.  A level-1 Heading with empty content is left
untouched by `transform` for web-markup (html): it is not replaced by a page
break and not wrapped in a Container, contradicting the claim's "for every
other format, wraps it in a Container". -/
theorem C4_counterexample :
    transformBlock (txt "html") (Meta.map []) (.header 1 []) = .ok (.header 1 [])
    ∧ ∀ (cs : List Block) (attrs : List (Txt × Txt)),
        (Block.header 1 [] : Block) ≠ .div cs attrs := by
  refine ⟨rfl, fun cs attrs h => ?_⟩
  exact Block.noConfusion h

/-- C4 — amended.  A level-1 Heading with empty inline content is replaced
by a forced-page-break Div exactly for the latex and docx (word-processor)
formats, and left untouched for every other format, including web-markup
(html, also used for pdf-via-web) and portable-ebook (epub). -/
theorem C4_empty_heading (fmt : Txt) (m : Meta) :
    transformBlock fmt m (.header 1 []) =
      .ok (if fmt = txt "latex" ∨ fmt = txt "docx" then .div (newpage fmt) []
           else .header 1 []) := by
  by_cases hf : fmt = txt "latex" ∨ fmt = txt "docx"
  · simp [transformBlock, hf]
  · simp [transformBlock, hf]

/-- C5 — counterexample.  For the ast-dump format (pandoc target `json`,
the `-t json` debug output of the build tool), `section_sep` falls through
its final `else` and returns the element unchanged: the `+++` Paragraph
survives verbatim, contradicting "the +++ Paragraph never survives
unchanged in the output". -/
theorem C5_counterexample :
    transformBlock (txt "json") (Meta.map []) (.para [.str (txt "+++")]) =
      .ok (.para [.str (txt "+++")]) := rfl

/-- C5 — amended.  A Paragraph carrying the exact `+++` token (and no
earlier-matching marker) is replaced by a centered "• • •" rendering for
web-markup/portable-ebook (raw styled block), raw-markup latex (centered raw
block) and word-processor docx (named-style container); for every remaining
format the Paragraph is returned unchanged. -/
theorem C5_section_sep (fmt : Txt) (m : Meta) (is : List Inline)
    (hsep : containsChild is SEP_TOK = true)
    (hnp : containsChild is NEWPAGE_TOK = false)
    (hL : startsWithChild is LEFT_JUSTIFY = false)
    (hC : startsWithChild is CENTER_JUSTIFY = false)
    (hR : startsWithChild is RIGHT_JUSTIFY = false) :
    ((fmt = txt "html" ∨ is_epub fmt = true) →
      transformBlock fmt m (.para is) =
        .ok (.rawBlock (txt "html") (txt "<div class=\"sep\">• • •</div>")))
    ∧ transformBlock (txt "latex") m (.para is) =
        .ok (.para [.rawInline (txt "latex") (txt "\\bigskip"),
                    .rawInline (txt "latex") (txt "\\begin\x7bcenter\x7d"),
                    .str (txt "• • •"),
                    .rawInline (txt "latex") (txt "\\end\x7bcenter\x7d"),
                    .rawInline (txt "latex") (txt "\\bigskip")])
    ∧ transformBlock (txt "docx") m (.para is) =
        .ok (.div [.para [], .para [.str (txt "• • •")]]
              [(txt "custom-style", txt "Centered")])
    ∧ (fmt ≠ txt "html" → is_epub fmt = false → fmt ≠ txt "latex" →
        fmt ≠ txt "docx" → transformBlock fmt m (.para is) = .ok (.para is)) := by
  have hsec : ∀ f2 : Txt,
      transformBlock f2 m (.para is) = .ok (section_sep f2 (.para is)) := by
    intro f2
    simp only [transformBlock, hnp, hL, hC, hR, hsep, Bool.false_eq_true,
      if_false, if_true]
  refine ⟨fun hf => ?_, ?_, ?_, fun h1 h2 h3 h4 => ?_⟩
  · rw [hsec fmt]
    unfold section_sep
    rw [if_pos hf]
  · rw [hsec (txt "latex")]
    rfl
  · rw [hsec (txt "docx")]
    rfl
  · rw [hsec fmt]
    unfold section_sep
    rw [if_neg ?_, if_neg h3, if_neg h4]
    rintro (h | h)
    · exact h1 h
    · rw [h] at h2; exact Bool.noConfusion h2

/-- C5 — witness: a `+++` paragraph becomes the styled raw separator block
for web-markup. -/
theorem C5_section_sep_witness :
    transformBlock (txt "html") (Meta.map []) (.para [.str (txt "+++")]) =
      .ok (.rawBlock (txt "html") (txt "<div class=\"sep\">• • •</div>")) :=
  (C5_section_sep (txt "html") (Meta.map []) [.str (txt "+++")]
    (by decide) (by decide) (by decide) (by decide) (by decide)).1 (Or.inl rfl)

/-- C6 — code bug.  Dropping and renumbering behave as the claim states
(the claim's example, which has no stray text nodes, normalizes to exactly
`navPoint-1` "Chapter One").  But the claim's "strips stray text nodes
directly under the entry-list root" — also the strip loop's own stated
intent — fails: `strip_text_children` iterates the live child list while
removing, skipping the child after each removed text node, so on a `navMap`
whose entry removal leaves two stray text nodes adjacent, one of them
survives directly under the root: the traced failing input evaluates to
`[textNode " ", navPoint-1 "Chapter One"]`, with a text node in the output. -/
theorem C6_fix_toc_ncx :
    fix_toc_ncx (txt "Book Title")
        [.navPoint (txt "navPoint-1") (txt "Book Title"),
         .navPoint (txt "navPoint-2") (txt "Chapter One"),
         .navPoint (txt "navPoint-3") []] =
      [.navPoint (txt "navPoint-1") (txt "Chapter One")]
    ∧ fix_toc_ncx (txt "Book Title")
        [.textNode (txt " "), .navPoint (txt "x") (txt "Book Title"),
         .textNode (txt " "), .navPoint (txt "y") (txt "Chapter One"),
         .textNode (txt " ")] =
      [.textNode (txt " "), .navPoint (txt "navPoint-1") (txt "Chapter One")]
    ∧ NcxNode.textNode (txt " ") ∈
        fix_toc_ncx (txt "Book Title")
          [.textNode (txt " "), .navPoint (txt "x") (txt "Book Title"),
           .textNode (txt " "), .navPoint (txt "y") (txt "Chapter One"),
           .textNode (txt " ")] := by
  refine ⟨rfl, rfl, ?_⟩
  decide

/-- C7 — confirmed.  If any Paragraph of the tree (at any nesting depth)
carries the `%newpage%` token, the walk aborts with the fatal message, for
every format and metadata map; with validated metadata the whole filter pass
aborts too, producing no output tree. -/
theorem C7_newpage_abort (fmt : Txt) (m : Meta) (tree : List Block)
    (h : hasNewpageBlocks tree = true) :
    walkBlocks fmt m tree = .error NEWPAGE_MSG
    ∧ (validate_metadata m = .ok () → runFilter fmt m tree = .error NEWPAGE_MSG) := by
  have h1 : walkBlocks fmt m tree = .error NEWPAGE_MSG := by
    cases hw : walkBlocks fmt m tree with
    | error e =>
      rw [(walk_error_msg fmt m).2 tree e hw]
    | ok r => exact absurd hw ((walk_newpage_not_ok fmt m).2 tree h r)
  refine ⟨h1, fun hv => ?_⟩
  unfold runFilter
  rw [hv]
  exact h1

/-- C7 — witness: a `%newpage%` paragraph nested inside a Div aborts the
pass for web-markup with validated metadata. -/
theorem C7_newpage_abort_witness :
    walkBlocks (txt "html")
        (Meta.map
          [(txt "title", Meta.str (txt "T")),
           (txt "author", Meta.list [txt "A"]),
           (txt "copyright", Meta.map
              [(txt "owner", Meta.str (txt "O")),
               (txt "year", Meta.str (txt "2020"))]),
           (txt "publisher", Meta.str (txt "P")),
           (txt "language", Meta.str (txt "en")),
           (txt "genre", Meta.str (txt "fiction"))])
        [Block.div [Block.para [.str (txt "%newpage%")]] []] = .error NEWPAGE_MSG
    ∧ (validate_metadata (Meta.map
          [(txt "title", Meta.str (txt "T")),
           (txt "author", Meta.list [txt "A"]),
           (txt "copyright", Meta.map
              [(txt "owner", Meta.str (txt "O")),
               (txt "year", Meta.str (txt "2020"))]),
           (txt "publisher", Meta.str (txt "P")),
           (txt "language", Meta.str (txt "en")),
           (txt "genre", Meta.str (txt "fiction"))]) = .ok () →
       runFilter (txt "html")
        (Meta.map
          [(txt "title", Meta.str (txt "T")),
           (txt "author", Meta.list [txt "A"]),
           (txt "copyright", Meta.map
              [(txt "owner", Meta.str (txt "O")),
               (txt "year", Meta.str (txt "2020"))]),
           (txt "publisher", Meta.str (txt "P")),
           (txt "language", Meta.str (txt "en")),
           (txt "genre", Meta.str (txt "fiction"))])
        [Block.div [Block.para [.str (txt "%newpage%")]] []] = .error NEWPAGE_MSG) :=
  C7_newpage_abort (txt "html") _ _ (by decide)

/-- C8 — confirmed.  For validated metadata and a tree free of justification
markers, `+++` separators, placeholder tokens, `%newpage%` and headings, the
filter pass returns the input tree unchanged, for every format. -/
theorem C8_identity (fmt : Txt) (m : Meta) (tree : List Block)
    (hv : validate_metadata m = .ok ())
    (hc : cleanBlocks tree = true) :
    runFilter fmt m tree = .ok tree := by
  unfold runFilter
  rw [hv]
  exact (walk_clean fmt m).2 tree hc

/-- C8 — witness: a plain two-block tree passes through unchanged. -/
theorem C8_identity_witness :
    runFilter (txt "html")
        (Meta.map
          [(txt "title", Meta.str (txt "T")),
           (txt "author", Meta.list [txt "A"]),
           (txt "copyright", Meta.map
              [(txt "owner", Meta.str (txt "O")),
               (txt "year", Meta.str (txt "2020"))]),
           (txt "publisher", Meta.str (txt "P")),
           (txt "language", Meta.str (txt "en")),
           (txt "genre", Meta.str (txt "fiction"))])
        [Block.para [.str (txt "hello"), Inline.lineBreak, .str (txt "world")],
         Block.div [Block.rawBlock (txt "html") (txt "<hr/>")] []] =
      .ok [Block.para [.str (txt "hello"), Inline.lineBreak, .str (txt "world")],
           Block.div [Block.rawBlock (txt "html") (txt "<hr/>")] []] :=
  C8_identity (txt "html") _ _ (by rfl) (by decide)

/-- C9 — code bug.  Normalization is NOT idempotent in either encoding: the
live-iteration skip of `strip_text_children` leaves a stray text node after
the first pass (its removal loop deleted the entry between two stray text
nodes, making them adjacent), and the second pass removes it, so pass two
differs from pass one.  This theorem evaluates both encodings at the traced
failing inputs: for the numbered-entry encoding the first pass yields
`[textNode, navPoint-1]` and the second `[navPoint-1]`; for the nested-list
encoding the passes likewise disagree. -/
theorem C9_normalize_idempotent :
    fix_toc_ncx (txt "Book Title")
        [.textNode (txt " "), .navPoint (txt "x") (txt "Book Title"),
         .textNode (txt " "), .navPoint (txt "y") (txt "Chapter One"),
         .textNode (txt " ")] =
      [.textNode (txt " "), .navPoint (txt "navPoint-1") (txt "Chapter One")]
    ∧ fix_toc_ncx (txt "Book Title")
        [.textNode (txt " "), .navPoint (txt "navPoint-1") (txt "Chapter One")] =
      [.navPoint (txt "navPoint-1") (txt "Chapter One")]
    ∧ fix_toc_ncx (txt "Book Title")
        (fix_toc_ncx (txt "Book Title")
          [.textNode (txt " "), .navPoint (txt "x") (txt "Book Title"),
           .textNode (txt " "), .navPoint (txt "y") (txt "Chapter One"),
           .textNode (txt " ")]) ≠
      fix_toc_ncx (txt "Book Title")
        [.textNode (txt " "), .navPoint (txt "x") (txt "Book Title"),
         .textNode (txt " "), .navPoint (txt "y") (txt "Chapter One"),
         .textNode (txt " ")]
    ∧ fix_nav_xhtml (txt "Book Title")
        [⟨some (txt "toc"),
          [[OlNode.textNode (txt " "), OlNode.li (txt "a") [txt "Book Title"],
            OlNode.textNode (txt " "), OlNode.li (txt "b") [txt "Chapter One"],
            OlNode.textNode (txt " ")]]⟩] =
      .ok [⟨some (txt "toc"),
            [[OlNode.textNode (txt " "),
              OlNode.li (txt "toc-li-1") [txt "Chapter One"]]]⟩]
    ∧ fix_nav_xhtml (txt "Book Title")
        [⟨some (txt "toc"),
          [[OlNode.textNode (txt " "),
            OlNode.li (txt "toc-li-1") [txt "Chapter One"]]]⟩] =
      .ok [⟨some (txt "toc"), [[OlNode.li (txt "toc-li-1") [txt "Chapter One"]]]⟩]
    ∧ ([⟨some (txt "toc"), [[OlNode.li (txt "toc-li-1") [txt "Chapter One"]]]⟩] :
        List Nav) ≠
      [⟨some (txt "toc"),
        [[OlNode.textNode (txt " "), OlNode.li (txt "toc-li-1") [txt "Chapter One"]]]⟩] := by
  refine ⟨rfl, rfl, ?_, rfl, rfl, ?_⟩
  · decide
  · decide

/-- C10 — confirmed.  Per transform visit, a `Str` leaf gets at most one
placeholder substituted: when the text decomposes at the last occurrence of
the token of the first matching pattern kind (table order title, subtitle,
copyright-owner, copyright-year, publisher, language; no earlier kind
occurring, no occurrence of the token further right, no `%author%`), the
output is exactly prefix ++ metadata value ++ suffix — every other
placeholder occurrence sits inside the prefix or suffix and stays verbatim. -/
theorem C10_single_substitution (m : Meta) (s pre suf tok key : Txt)
    (ps1 ps2 : List (Txt × Txt))
    (htable : SIMPLE_PATTERNS = ps1 ++ (tok, key) :: ps2)
    (hskip : ∀ p ∈ ps1, hasSub p.1 s = false)
    (hdec : s = pre ++ tok ++ suf)
    (hpin : hasSub tok (tok.drop 1 ++ suf) = false)
    (hauthor : hasSub AUTHOR_PAT s = false) :
    transformInline m (.str s) = .str (pre ++ getMetaTxt m key ++ suf) := by
  have ha : lastSplit AUTHOR_PAT s = none := (lastSplit_none_iff _ _).mpr hauthor
  have hsplit : lastSplit tok s = some (pre, suf) := by
    rw [hdec]
    exact lastSplit_last tok pre suf hpin
  simp only [transformInline, ha, check_for_simple_pattern, htable]
  exact congrArg Inline.str (simpleLoop_hit m ps1 tok key ps2 s pre suf hskip hsplit)

/-- C10 — witness: in "%subtitle% and %publisher%" only the `%subtitle%`
token is substituted (first matching kind), and the `%publisher%` occurrence
survives verbatim in the suffix. -/
theorem C10_single_substitution_witness :
    transformInline (Meta.map [(txt "subtitle", Meta.str (txt "S"))])
        (.str (txt "%subtitle% and %publisher%")) =
      .str (txt "S and %publisher%") := by
  have h := C10_single_substitution
    (Meta.map [(txt "subtitle", Meta.str (txt "S"))])
    (txt "%subtitle% and %publisher%") [] (txt " and %publisher%")
    (txt "%subtitle%") (txt "subtitle")
    [(txt "%title%", txt "title")]
    [(txt "%copyright-owner%", txt "copyright.owner"),
     (txt "%copyright-year%", txt "copyright.year"),
     (txt "%publisher%", txt "publisher"),
     (txt "%language%", txt "language")]
    rfl (by decide) rfl (by decide) (by decide)
  exact h
